import Mathlib

/-!
Shallow embedding of the `film_sims` LUT conversion tools
(`src/tools/convert_luts.py` and `src/tools/extract_leica_lux_luts.py`).

Modelling conventions:
* Python strings are modelled as `List Char`; a text file is a `List (List Char)`
  (the list of its lines, newline terminators removed, as produced by `readlines`).
* Python byte buffers are `List ℕ` (each entry a byte value).
* Python floats (IEEE-754 doubles) are modelled as exact rationals `ℚ`; the decimal
  tokens appearing in LUT data are parsed to exact rationals (Python parses them to
  the nearest double; the difference is far below every tolerance the claims state).
  Non-finite values produced by the half-float decoder are modelled by the
  dedicated constructors of the `F` type below.
* Python's `float(str)` is modelled for decimal numerals (optional sign, digits with
  an optional point, optional exponent); Python additionally accepts spellings such
  as `inf`/`nan` and underscore separators, which never occur in LUT data.
* `round(x ** (1/3.0))` is modelled as the integer whose cube is nearest to the
  argument (exact on perfect cubes, agreeing with the double computation for every
  feasible sample count).
-/

namespace FilmSims

/-! ### Characters, whitespace, tokenization (Python `str.strip` / `str.split`) -/

/-- Whitespace characters recognised by Python's `str.strip()` / `str.split()`. -/
def isWS (c : Char) : Bool :=
  c = ' ' || c = '\t' || c = '\n' || c = '\r'

/-- Python `str.strip()`: drop whitespace from both ends. -/
def strip (l : List Char) : List Char :=
  ((l.dropWhile isWS).reverse.dropWhile isWS).reverse

/-- Helper for `splitWS`: `acc` holds the (reversed) characters of the token
currently being scanned. -/
def splitWSAux : List Char → List Char → List (List Char)
  | [], acc => if acc = [] then [] else [acc.reverse]
  | c :: cs, acc =>
    if isWS c then
      if acc = [] then splitWSAux cs [] else acc.reverse :: splitWSAux cs []
    else splitWSAux cs (c :: acc)

/-- Python `str.split()` with no separator: tokens separated by runs of whitespace. -/
def splitWS (l : List Char) : List (List Char) := splitWSAux l []

/-! ### Decimal digits and numerals -/

def isDigit (c : Char) : Bool :=
  '0' ≤ c && c ≤ '9'

/-- Numeric value of a decimal digit character. -/
def digVal (c : Char) : ℕ := c.toNat - 48

/-- Character for a decimal digit. -/
def digitChar : ℕ → Char
  | 0 => '0' | 1 => '1' | 2 => '2' | 3 => '3' | 4 => '4'
  | 5 => '5' | 6 => '6' | 7 => '7' | 8 => '8' | 9 => '9'
  | _ => '*'

/-- Decimal digits of `n`, least significant first, with explicit fuel (any fuel
at least the digit count of `n` gives the same result). -/
def natDigitsRev (fuel : ℕ) (n : ℕ) : List ℕ :=
  match fuel with
  | 0 => []
  | fuel + 1 => if n = 0 then [] else n % 10 :: natDigitsRev fuel (n / 10)

/-- Decimal representation of a natural number, most significant digit first
(Python `str(n)` / `f-string` formatting of a nonnegative int). -/
def natToDigits (n : ℕ) : List Char :=
  if n = 0 then ['0'] else ((natDigitsRev n n).map digitChar).reverse

/-- Value of a most-significant-first digit string. -/
def digitsToNat (ds : List Char) : ℕ :=
  ds.foldl (fun a c => 10 * a + digVal c) 0

/-- Value of a least-significant-first digit list (proof-side semantics of
`natDigitsRev`). -/
def ofDigitsRev : List ℕ → ℕ
  | [] => 0
  | d :: t => d + 10 * ofDigitsRev t

/-- Nonempty all-digit string to a natural number. -/
def parseDigits (cs : List Char) : Option ℕ :=
  if cs ≠ [] ∧ cs.all isDigit then some (digitsToNat cs) else none

/-! ### Python numeral parsing (`float(tok)`, `int(tok)`) -/

/-- Split a character list at the first occurrence of a separator satisfying `p`;
returns the part before it and, when found, the part after it. -/
def breakAt (p : Char → Bool) : List Char → List Char × Option (List Char)
  | [] => ([], none)
  | c :: cs =>
    if p c then ([], some cs)
    else
      let r := breakAt p cs
      (c :: r.1, r.2)

/-- Unsigned decimal mantissa: digits with at most one point, at least one digit. -/
def parseMant (l : List Char) : Option ℚ :=
  match breakAt (fun c => c = '.') l with
  | (ip, none) =>
    if ip ≠ [] ∧ ip.all isDigit then some (digitsToNat ip) else none
  | (ip, some fp) =>
    if (ip ≠ [] ∨ fp ≠ []) ∧ ip.all isDigit ∧ fp.all isDigit then
      some ((digitsToNat ip : ℚ) + (digitsToNat fp : ℚ) / 10 ^ fp.length)
    else none

/-- Signed decimal integer (for the exponent part of a float literal). -/
def parseSignedDigits (l : List Char) : Option ℤ :=
  match l with
  | '+' :: r => (parseDigits r).map (fun n => (n : ℤ))
  | '-' :: r => (parseDigits r).map (fun n => -(n : ℤ))
  | r => (parseDigits r).map (fun n => (n : ℤ))

/-- Unsigned part of a decimal float literal: mantissa with optional `e`/`E` exponent. -/
def pyFloatCore (l : List Char) : Option ℚ :=
  match breakAt (fun c => c = 'e' || c = 'E') l with
  | (m, none) => parseMant m
  | (m, some e) =>
    match parseMant m, parseSignedDigits e with
    | some mv, some ev => some (mv * (10 : ℚ) ^ ev)
    | _, _ => none

/-- Python `float(tok)` on a whitespace-free token, for decimal numerals. -/
def pyFloat? (l : List Char) : Option ℚ :=
  match l with
  | '+' :: r => pyFloatCore r
  | '-' :: r => (pyFloatCore r).map (fun v => -v)
  | r => pyFloatCore r

/-- Python `int(tok)` on a whitespace-free token. -/
def pyInt? (l : List Char) : Option ℤ :=
  match l with
  | '+' :: r => (parseDigits r).map (fun n => (n : ℤ))
  | '-' :: r => (parseDigits r).map (fun n => -(n : ℤ))
  | r => (parseDigits r).map (fun n => (n : ℤ))

/-! ### Half-float decoder (`float16_to_float32`, extract_leica_lux_luts.py lines 15–33) -/

/-- Value space of the decoder: finite rationals plus the special IEEE values the
Python code can return (`-0.0`, `float('inf')`, `float('-inf')`); `nan` is included
so that the spec's required NaN result is expressible. -/
inductive F where
  | val (q : ℚ)
  | negZero
  | inf
  | negInf
  | nan
deriving DecidableEq

/-- Embedding of `float16_to_float32` from extract_leica_lux_luts.py. -/
def float16_to_float32 (h16 : ℕ) : F :=
  let sign := (h16 >>> 15) &&& 1
  let exp := (h16 >>> 10) &&& 0x1f
  let mant := h16 &&& 0x3ff
  if exp = 0 then
    if mant = 0 then (if sign = 1 then F.negZero else F.val 0)
    else
      let f : ℚ := ((mant : ℚ) / 1024) * (2 : ℚ) ^ (-14 : ℤ)
      if sign = 1 then F.val (-f) else F.val f
  else if exp = 31 then (if sign = 1 then F.negInf else F.inf)
  else
    let f : ℚ := (1 + (mant : ℚ) / 1024) * (2 : ℚ) ^ ((exp : ℤ) - 15)
    if sign = 1 then F.val (-f) else F.val f

/-! ### Rounding and fixed-point formatting -/

/-- Round the fraction `num / den` (`den > 0`, not necessarily reduced) to the
nearest integer, ties to even: `f` is the floor, `r / den` the fractional part. -/
def rheScaled (num den : ℤ) : ℤ :=
  let f := num / den
  let r := num % den
  if 2 * r < den then f
  else if den < 2 * r then f + 1
  else if f % 2 = 0 then f else f + 1

/-- Round a rational to the nearest integer, ties to even (the rounding performed
by IEEE-754 double arithmetic and by printf-style formatting in Python). -/
def rhe (q : ℚ) : ℤ := rheScaled q.num (q.den : ℤ)

/-- Numerator of the 6-fractional-digit decimal printed for `q`: the integer
nearest `q * 10^6` (ties to even), computed on the raw fraction. -/
def round6 (q : ℚ) : ℤ := rheScaled (q.num * 1000000) (q.den : ℤ)

/-- Clamp to the unit interval: `max(0.0, min(1.0, x))`. -/
def clamp01 (q : ℚ) : ℚ := max 0 (min 1 q)

/-- Python's `max(0.0, min(1.0, x))` on the full float domain, following Python's
`min`/`max` argument-order semantics on the special values (`min(1.0, nan)` is
`1.0` because `nan < 1.0` is false; infinities clamp to the nearest bound). -/
def clampF : F → ℚ
  | F.val q => clamp01 q
  | F.negZero => 0
  | F.inf => 1
  | F.negInf => 0
  | F.nan => 1

/-- The value denoted by the 6-fractional-digit decimal printed for `q`. -/
def val6 (q : ℚ) : ℚ := (round6 q : ℚ) / 1000000

/-- Fixed-point rendering with 6 fractional digits (Python `f"{x:.6f}"` for
nonnegative `x`, the only case arising after clamping). -/
def fmt6 (q : ℚ) : List Char :=
  let n := (round6 q).toNat
  let fd := natToDigits (n % 1000000)
  natToDigits (n / 1000000) ++ '.' :: (List.replicate (6 - fd.length) '0' ++ fd)

/-! ### CUBE text writer (`write_cube_file`, extract_leica_lux_luts.py lines 70–83) -/

/-- Embedding of `write_cube_file`: the list of lines written to the output file
(newline terminators removed). Alpha components are read but never written. -/
def write_cube_file (rgba_values : List (F × F × F × F)) (lut_size : ℕ)
    (title : List Char) : List (List Char) :=
  ("TITLE ".data ++ title) ::
  "# Generated from Leica Camera LUT".data ::
  ("LUT_3D_SIZE ".data ++ natToDigits lut_size) ::
  rgba_values.map (fun t =>
    fmt6 (clampF t.1) ++ ' ' :: fmt6 (clampF t.2.1) ++ ' ' :: fmt6 (clampF t.2.2.1))

/-! ### Raw sample reader (`read_leica_lut`, extract_leica_lux_luts.py lines 36–67) -/

/-- Little-endian 16-bit value of two consecutive buffer bytes
(`struct.unpack('<H', ...)` on a 2-byte slice). -/
def u16at (data : List ℕ) (o : ℕ) : ℕ := data.getD o 0 + 256 * data.getD (o + 1) 0

/-- Decode pixel `i`: four little-endian half-floats (R, G, B, A) at byte offset `8*i`. -/
def decodePixel (data : List ℕ) (i : ℕ) : F × F × F × F :=
  (float16_to_float32 (u16at data (8 * i)),
   float16_to_float32 (u16at data (8 * i + 2)),
   float16_to_float32 (u16at data (8 * i + 4)),
   float16_to_float32 (u16at data (8 * i + 6)))

/-- The `for i in range(total_pixels)` loop with its early `break` when fewer than
8 bytes remain at offset `8*i`. -/
def readFrom (data : List ℕ) (i : ℕ) : ℕ → List (F × F × F × F)
  | 0 => []
  | n + 1 =>
    if data.length < 8 * i + 8 then []
    else decodePixel data i :: readFrom data (i + 1) n

/-- Embedding of `read_leica_lut`: the pair (decoded RGBA samples, lut_size).
The edge length 64 is hardcoded; the function is total and returns no
indication when the buffer is shorter than expected. -/
def read_leica_lut (data : List ℕ) : List (F × F × F × F) × ℕ :=
  let lut_size := 64
  (readFrom data 0 (lut_size ^ 3), lut_size)

/-! ### Integer cube root (size inference of convert_luts.py lines 37–47) -/

/-- Largest `m` with `m ^ 3 ≤ n`. -/
def icbrt (n : ℕ) : ℕ := Nat.findGreatest (fun m => m ^ 3 ≤ n) n

/-- Model of Python `round(n ** (1/3.0))`: the integer whose cube is nearest to
`n` (exact on perfect cubes — the only case the subsequent equality check
accepts — and agreeing with the double computation for every feasible count). -/
def cbrtRound (n : ℕ) : ℕ :=
  let c := icbrt n
  if (c + 1) ^ 3 - n ≤ n - c ^ 3 then c + 1 else c

/-! ### CUBE text scan (`convert_cube_to_bin`, convert_luts.py lines 17–52) -/

/-- Effect of one line on the scan state. -/
inductive LineAct where
  | skip
  | setSize (n : ℤ)
  | raiseErr
  | sample (t : ℚ × ℚ × ℚ)
  | discard
deriving DecidableEq

/-- Per-line behaviour of the parsing loop of `convert_cube_to_bin`: strip, skip
blanks/comments/`TITLE`/`DOMAIN_` lines, handle `LUT_3D_SIZE` (raising on a
non-integer size token, exactly as `int(parts[1])` does), and otherwise accept
exactly three float tokens as one RGB sample. -/
def classify (line : List Char) : LineAct :=
  let l := strip line
  if l = [] then .skip
  else if ("#".data.isPrefixOf l) || ("TITLE".data.isPrefixOf l)
      || ("DOMAIN_".data.isPrefixOf l) then .skip
  else if "LUT_3D_SIZE".data.isPrefixOf l then
    match splitWS l with
    | _ :: p1 :: _ =>
      match pyInt? p1 with
      | some n => .setSize n
      | none => .raiseErr
    | _ => .skip
  else
    match splitWS l with
    | [a, b, c] =>
      match pyFloat? a, pyFloat? b, pyFloat? c with
      | some r, some g, some bb => .sample (r, g, bb)
      | _, _, _ => .discard
    | _ => .discard

/-- The line scan of `convert_cube_to_bin`: threads the `size` variable
(initialised to the sentinel `-1`) and the accumulated `data_lines`;
`Except.error` models the uncaught `ValueError` from `int(parts[1])`. -/
def scan : List (List Char) → ℤ → List (ℚ × ℚ × ℚ) → Except Unit (ℤ × List (ℚ × ℚ × ℚ))
  | [], size, acc => .ok (size, acc)
  | l :: ls, size, acc =>
    match classify l with
    | .skip => scan ls size acc
    | .discard => scan ls size acc
    | .setSize n => scan ls n acc
    | .raiseErr => .error ()
    | .sample t => scan ls size (acc ++ [t])

/-! ### Binary LUT writer (`convert_cube_to_bin`, convert_luts.py lines 55–82) -/

/-- The ASCII bytes of the magic tag `".MS-LUT "`. -/
def magicBytes : List ℕ := [46, 77, 83, 45, 76, 85, 84, 32]

/-- Little-endian 4-byte encoding (`struct.pack('<I', n)` for in-range `n`). -/
def u32le (n : ℕ) : List ℕ :=
  [n % 256, n / 256 % 256, n / 256 ^ 2 % 256, n / 256 ^ 3 % 256]

/-- Little-endian 8-byte encoding (`struct.pack('<Q', n)` for in-range `n`). -/
def u64le (n : ℕ) : List ℕ :=
  [n % 256, n / 256 % 256, n / 256 ^ 2 % 256, n / 256 ^ 3 % 256,
   n / 256 ^ 4 % 256, n / 256 ^ 5 % 256, n / 256 ^ 6 % 256, n / 256 ^ 7 % 256]

/-- Little-endian value of a byte list (inverse view of the `u*le` encoders). -/
def decLE : List ℕ → ℕ
  | [] => 0
  | b :: t => b + 256 * decLE t

/-- Floor of the base-2 logarithm of a positive rational. -/
def floorLog2q (q : ℚ) : ℤ :=
  let e0 : ℤ := (Nat.log2 q.num.toNat : ℤ) - (Nat.log2 q.den : ℤ)
  if (2 : ℚ) ^ (e0 + 1) ≤ q then e0 + 1
  else if (2 : ℚ) ^ e0 ≤ q then e0
  else e0 - 1

/-- IEEE-754 binary32 bit pattern of a finite rational, round to nearest with
ties to even: the conversion `struct.pack('<f', x)` performs on a finite double. -/
def f32bits (q : ℚ) : ℕ :=
  if q = 0 then 0
  else
    let s : ℕ := if q < 0 then 1 else 0
    let a : ℚ := |q|
    let e : ℤ := max (floorLog2q a) (-126)
    let m : ℤ := rhe (a * (2 : ℚ) ^ (23 - e))
    let e2 : ℤ := if 2 ^ 24 ≤ m then e + 1 else e
    let m2 : ℤ := if 2 ^ 24 ≤ m then 2 ^ 23 else m
    if 127 < e2 then s * 2 ^ 31 + 255 * 2 ^ 23
    else if m2 < 2 ^ 23 then s * 2 ^ 31 + m2.toNat
    else s * 2 ^ 31 + (e2 + 127).toNat * 2 ^ 23 + (m2 - 2 ^ 23).toNat

/-- The 4 bytes `struct.pack('<fff', ...)` contributes per component. -/
def f32le (q : ℚ) : List ℕ := u32le (f32bits q)

/-- The byte blob written by the `.bin`-writing section of `convert_cube_to_bin`
(lines 55–82): header fields in write order, with each zero padding computed
from the current position exactly as the code computes it from `f.tell()`. -/
def writeBin (size : ℕ) (data : List (ℚ × ℚ × ℚ)) : List ℕ :=
  let h1 := magicBytes ++ u32le 1 ++ u32le size ++ [3]
  let h2 := h1 ++ List.replicate (0x28 - h1.length) 0
  let h3 := h2 ++ u64le 64
  let h4 := h3 ++ (if h3.length < 64 then List.replicate (64 - h3.length) 0 else [])
  h4 ++ data.flatMap (fun t => f32le t.1 ++ f32le t.2.1 ++ f32le t.2.2)

/-- Outcome of one CUBE-to-binary conversion: the two `return False` paths with
the counts their error messages report, or success with the written blob. -/
inductive ConvOut where
  | sizeUndeterminable (count : ℕ)
  | countMismatch (expected : ℤ) (actual : ℕ)
  | success (blob : List ℕ)
deriving DecidableEq

/-- Decidable equality for `Except`, so that concrete conversion outcomes can be
settled by `decide`. -/
instance {ε α : Type} [DecidableEq ε] [DecidableEq α] : DecidableEq (Except ε α) := fun x y =>
  match x, y with
  | .error a, .error b => if h : a = b then isTrue (by rw [h]) else isFalse (by simp [h])
  | .ok a, .ok b => if h : a = b then isTrue (by rw [h]) else isFalse (by simp [h])
  | .error _, .ok _ => isFalse (by simp)
  | .ok _, .error _ => isFalse (by simp)

/-- Embedding of `convert_cube_to_bin` (convert_luts.py lines 7–85) on a document
given as its list of lines. `Except.error` models an uncaught Python exception. -/
def convert_cube_to_bin (doc : List (List Char)) : Except Unit ConvOut :=
  match scan doc (-1) [] with
  | .error e => .error e
  | .ok (size0, data) =>
    if size0 = -1 then
      let c := cbrtRound data.length
      if (c : ℤ) ^ 3 = data.length then
        if (data.length : ℤ) ≠ (c : ℤ) ^ 3 then .ok (.countMismatch ((c : ℤ) ^ 3) data.length)
        else .ok (.success (writeBin c data))
      else .ok (.sizeUndeterminable data.length)
    else
      if (data.length : ℤ) ≠ size0 ^ 3 then .ok (.countMismatch (size0 ^ 3) data.length)
      else .ok (.success (writeBin size0.toNat data))

/-! ### Orchestrators (`main` of both scripts) -/

/-- The conversion loop of `main` in convert_luts.py (lines 103–109):
`success_count` accumulation; an uncaught exception aborts the whole loop. -/
def convLoop : List (List (List Char)) → ℕ → Except Unit ℕ
  | [], acc => .ok acc
  | d :: ds, acc =>
    match convert_cube_to_bin d with
    | .error e => .error e
    | .ok (.success _) => convLoop ds (acc + 1)
    | .ok _ => convLoop ds acc

/-- Orchestrator of convert_luts.py `main`: the final tally
(successes, attempted) printed as `Converted {success_count}/{len} files`. -/
def mainConvert (docs : List (List (List Char))) : Except Unit (ℕ × ℕ) :=
  (convLoop docs 0).map (fun s => (s, docs.length))

/-- Truthiness test `if convert_cube_to_bin(...)` of the loop. -/
def isSuccess (r : Except Unit ConvOut) : Bool :=
  match r with
  | .ok (.success _) => true
  | _ => false

/-- Orchestrator of extract_leica_lux_luts.py `main` (lines 101–118): each file is
processed inside `try`/`except`; the body (read then write, with the title taken
from the file name — file naming is out-of-scope glue, modelled as an empty
title) is total, so every file yields an output document. -/
def mainExtract (bufs : List (List ℕ)) : List (List (List Char)) :=
  bufs.map (fun b =>
    let r := read_leica_lut b
    write_cube_file r.1 r.2 [])

/-! ### Spec-side layout predicate for the binary format (spec §4.5, claim C1) -/

/-- Layout required by the spec's §4.5 table: stated from the spec's words, to be
compared with the blob `writeBin` (translated from the source) produces. -/
def binLayoutOK (E : ℕ) (data : List (ℚ × ℚ × ℚ)) (blob : List ℕ) : Prop :=
  blob.length = 64 + 12 * E ^ 3 ∧
  blob.take 8 = magicBytes ∧
  decLE ((blob.drop 8).take 4) = 1 ∧
  decLE ((blob.drop 12).take 4) = E ∧
  blob.getD 16 0 = 3 ∧
  (blob.drop 17).take 23 = List.replicate 23 0 ∧
  decLE ((blob.drop 40).take 8) = 64 ∧
  (blob.drop 48).take 16 = List.replicate 16 0 ∧
  blob.drop 64 = data.flatMap (fun t => f32le t.1 ++ f32le t.2.1 ++ f32le t.2.2)

/-! ## Helper lemmas: decimal digits -/

theorem digVal_digitChar {d : ℕ} (h : d < 10) : digVal (digitChar d) = d := by
  interval_cases d <;> decide

theorem isDigit_digitChar {d : ℕ} (h : d < 10) : isDigit (digitChar d) = true := by
  interval_cases d <;> decide

theorem natDigitsRev_ofDigits {fuel : ℕ} :
    ∀ {n : ℕ}, n ≤ fuel → ofDigitsRev (natDigitsRev fuel n) = n := by
  induction fuel with
  | zero => intro n h; interval_cases n; rfl
  | succ fuel ih =>
    intro n h
    by_cases h0 : n = 0
    · subst h0; simp [natDigitsRev, ofDigitsRev]
    · have hlt : n / 10 < n := Nat.div_lt_self (Nat.pos_of_ne_zero h0) (by norm_num)
      have hd : n / 10 ≤ fuel := by omega
      simp only [natDigitsRev, h0, if_false, ofDigitsRev, ih hd]
      omega

theorem natDigitsRev_lt10 {fuel : ℕ} :
    ∀ {n d : ℕ}, d ∈ natDigitsRev fuel n → d < 10 := by
  induction fuel with
  | zero => intro n d h; simp [natDigitsRev] at h
  | succ fuel ih =>
    intro n d h
    by_cases h0 : n = 0
    · simp [natDigitsRev, h0] at h
    · simp only [natDigitsRev, h0, if_false, List.mem_cons] at h
      rcases h with h | h
      · omega
      · exact ih h

theorem natDigitsRev_length {fuel : ℕ} :
    ∀ {n k : ℕ}, n < 10 ^ k → (natDigitsRev fuel n).length ≤ k := by
  induction fuel with
  | zero => intro n k _; simp [natDigitsRev]
  | succ fuel ih =>
    intro n k hn
    by_cases h0 : n = 0
    · simp [natDigitsRev, h0]
    · cases k with
      | zero => simp at hn; omega
      | succ k =>
        have hq : n / 10 < 10 ^ k := by
          rw [Nat.div_lt_iff_lt_mul (by norm_num)]
          calc n < 10 ^ (k + 1) := hn
            _ = 10 ^ k * 10 := by ring
        have := ih hq
        simp only [natDigitsRev, h0, if_false, List.length_cons]
        omega

theorem natDigitsRev_ne_nil {fuel n : ℕ} (hf : fuel ≠ 0) (hn : n ≠ 0) :
    natDigitsRev fuel n ≠ [] := by
  cases fuel with
  | zero => exact absurd rfl hf
  | succ fuel => simp [natDigitsRev, hn]

theorem digitsToNat_concat (xs : List Char) (c : Char) :
    digitsToNat (xs ++ [c]) = 10 * digitsToNat xs + digVal c := by
  simp [digitsToNat, List.foldl_append]

theorem digitsToNat_reverse_map {l : List ℕ} (h : ∀ d ∈ l, d < 10) :
    digitsToNat ((l.map digitChar).reverse) = ofDigitsRev l := by
  induction l with
  | nil => rfl
  | cons d t ih =>
    simp only [List.map_cons, List.reverse_cons]
    rw [digitsToNat_concat, ih (fun x hx => h x (List.mem_cons_of_mem _ hx)),
        digVal_digitChar (h d (List.mem_cons_self _ _))]
    simp [ofDigitsRev]; ring

theorem digitsToNat_natToDigits (n : ℕ) : digitsToNat (natToDigits n) = n := by
  by_cases h0 : n = 0
  · subst h0; decide
  · unfold natToDigits
    rw [if_neg h0, digitsToNat_reverse_map (fun d hd => natDigitsRev_lt10 hd),
        natDigitsRev_ofDigits le_rfl]

theorem natToDigits_digits {n : ℕ} : ∀ c ∈ natToDigits n, isDigit c = true := by
  intro c hc
  unfold natToDigits at hc
  by_cases h0 : n = 0
  · rw [if_pos h0] at hc; simp at hc; subst hc; decide
  · rw [if_neg h0] at hc
    simp at hc
    obtain ⟨d, hd, rfl⟩ := hc
    exact isDigit_digitChar (natDigitsRev_lt10 hd)

theorem natToDigits_ne_nil (n : ℕ) : natToDigits n ≠ [] := by
  unfold natToDigits
  by_cases h0 : n = 0
  · simp [h0]
  · rw [if_neg h0]
    simp
    exact natDigitsRev_ne_nil h0 h0

theorem natToDigits_length_le {n k : ℕ} (hk : k ≠ 0) (h : n < 10 ^ k) :
    (natToDigits n).length ≤ k := by
  unfold natToDigits
  by_cases h0 : n = 0
  · simp [h0]; omega
  · rw [if_neg h0]; simp
    exact natDigitsRev_length h

theorem isDigit_facts {c : Char} (h : isDigit c = true) :
    isWS c = false ∧ c ≠ '.' ∧ c ≠ 'e' ∧ c ≠ 'E' ∧ c ≠ '+' ∧ c ≠ '-' := by
  refine ⟨?_, ?_, ?_, ?_, ?_, ?_⟩
  · cases hw : isWS c
    · rfl
    · exfalso
      simp only [isWS, Bool.or_eq_true, decide_eq_true_eq] at hw
      rcases hw with ((rfl | rfl) | rfl) | rfl <;> exact absurd h (by decide)
  all_goals (rintro rfl; exact absurd h (by decide))

theorem digitsToNat_zeros (k : ℕ) (ds : List Char) :
    digitsToNat (List.replicate k '0' ++ ds) = digitsToNat ds := by
  induction k with
  | zero => rfl
  | succ k ih =>
    simp only [List.replicate_succ, List.cons_append]
    show List.foldl _ (10 * 0 + digVal '0') _ = _
    simpa [digitsToNat] using ih

/-! ## Helper lemmas: tokenization -/

theorem splitWSAux_token (t : List Char) :
    ∀ (rest acc : List Char), (∀ c ∈ t, isWS c = false) →
      splitWSAux (t ++ rest) acc = splitWSAux rest (t.reverse ++ acc) := by
  induction t with
  | nil => intro rest acc _; simp
  | cons c cs ih =>
    intro rest acc h
    have hc : isWS c = false := h c (List.mem_cons_self _ _)
    simp only [List.cons_append, splitWSAux, hc, Bool.false_eq_true, if_false, List.append_eq]
    rw [ih rest (c :: acc) (fun x hx => h x (List.mem_cons_of_mem _ hx))]
    simp

theorem splitWSAux_ws {c : Char} (h : isWS c = true) (rest acc : List Char) :
    splitWSAux (c :: rest) acc =
      if acc = [] then splitWSAux rest [] else acc.reverse :: splitWSAux rest [] := by
  simp [splitWSAux, h]

theorem splitWSAux_last (t : List Char) (ht : t ≠ []) (hw : ∀ c ∈ t, isWS c = false) :
    splitWSAux t [] = [t] := by
  have h' := splitWSAux_token t [] [] hw
  simp only [List.append_nil] at h'
  rw [h']
  simp [splitWSAux, ht]

theorem splitWS_two (t1 t2 : List Char) (h1 : t1 ≠ []) (h2 : t2 ≠ [])
    (hw1 : ∀ c ∈ t1, isWS c = false) (hw2 : ∀ c ∈ t2, isWS c = false) :
    splitWS (t1 ++ ' ' :: t2) = [t1, t2] := by
  unfold splitWS
  rw [splitWSAux_token t1 _ [] hw1, splitWSAux_ws (by decide), if_neg (by simp [h1]),
      splitWSAux_last t2 h2 hw2]
  simp

theorem splitWS_three (t1 t2 t3 : List Char) (h1 : t1 ≠ []) (h2 : t2 ≠ []) (h3 : t3 ≠ [])
    (hw1 : ∀ c ∈ t1, isWS c = false) (hw2 : ∀ c ∈ t2, isWS c = false)
    (hw3 : ∀ c ∈ t3, isWS c = false) :
    splitWS (t1 ++ ' ' :: (t2 ++ ' ' :: t3)) = [t1, t2, t3] := by
  unfold splitWS
  rw [splitWSAux_token t1 _ [] hw1, splitWSAux_ws (by decide), if_neg (by simp [h1]),
      splitWSAux_token t2 _ [] hw2, splitWSAux_ws (by decide), if_neg (by simp [h2]),
      splitWSAux_last t3 h3 hw3]
  simp

theorem breakAt_none {p : Char → Bool} :
    ∀ {l : List Char}, (∀ c ∈ l, p c = false) → breakAt p l = (l, none) := by
  intro l
  induction l with
  | nil => intro _; rfl
  | cons c cs ih =>
    intro h
    have hc : p c = false := h c (List.mem_cons_self _ _)
    simp [breakAt, hc, ih (fun x hx => h x (List.mem_cons_of_mem _ hx))]

theorem breakAt_found {p : Char → Bool} {s : Char} (b : List Char) (hs : p s = true) :
    ∀ (a : List Char), (∀ c ∈ a, p c = false) → breakAt p (a ++ s :: b) = (a, some b) := by
  intro a
  induction a with
  | nil => intro _; simp [breakAt, hs]
  | cons c cs ih =>
    intro h
    have hc : p c = false := h c (List.mem_cons_self _ _)
    simp [breakAt, hc, ih (fun x hx => h x (List.mem_cons_of_mem _ hx))]

/-! ## Helper lemmas: rounding -/

theorem rheScaled_bound {n d : ℤ} (hd : 0 < d) :
    |(rheScaled n d : ℚ) - (n : ℚ) / (d : ℚ)| ≤ 1 / 2 := by
  have hd0 : d ≠ 0 := hd.ne'
  have hr0 : (0 : ℤ) ≤ n % d := Int.emod_nonneg n hd0
  have hrd : n % d < d := Int.emod_lt_of_pos n hd
  have hdq : (0 : ℚ) < (d : ℚ) := by exact_mod_cast hd
  have hnd : (n : ℚ) = (d : ℚ) * ((n / d : ℤ) : ℚ) + ((n % d : ℤ) : ℚ) := by
    exact_mod_cast (Int.ediv_add_emod n d).symm
  have hq : (n : ℚ) / (d : ℚ) = ((n / d : ℤ) : ℚ) + ((n % d : ℤ) : ℚ) / (d : ℚ) := by
    field_simp
    linarith
  have hrq0 : (0 : ℚ) ≤ ((n % d : ℤ) : ℚ) := by exact_mod_cast hr0
  have hrqd : ((n % d : ℤ) : ℚ) < (d : ℚ) := by exact_mod_cast hrd
  have hre : rheScaled n d =
      if 2 * (n % d) < d then n / d
      else if d < 2 * (n % d) then n / d + 1
      else if (n / d) % 2 = 0 then n / d else n / d + 1 := rfl
  rw [hre]
  split_ifs with hc1 hc2 hc3
  · -- 2r < d : floor is within 1/2
    have hc1' : 2 * ((n % d : ℤ) : ℚ) < (d : ℚ) := by exact_mod_cast hc1
    rw [hq, show ((n / d : ℤ) : ℚ) - (((n / d : ℤ) : ℚ) + ((n % d : ℤ) : ℚ) / (d : ℚ)) =
        -(((n % d : ℤ) : ℚ) / (d : ℚ)) by ring, abs_neg,
      abs_of_nonneg (div_nonneg hrq0 hdq.le), div_le_div_iff₀ hdq (by norm_num)]
    linarith
  · -- d < 2r : ceiling is within 1/2
    have hc2' : (d : ℚ) < 2 * ((n % d : ℤ) : ℚ) := by exact_mod_cast hc2
    push_cast
    rw [hq, show ((n / d : ℤ) : ℚ) + 1 - (((n / d : ℤ) : ℚ) + ((n % d : ℤ) : ℚ) / (d : ℚ)) =
        1 - ((n % d : ℤ) : ℚ) / (d : ℚ) by ring,
      abs_of_nonneg (by rw [sub_nonneg]; exact (div_le_one hdq).mpr hrqd.le)]
    have hhalf : (1 : ℚ) / 2 ≤ ((n % d : ℤ) : ℚ) / (d : ℚ) := by
      rw [div_le_div_iff₀ (by norm_num) hdq]
      linarith
    linarith
  · -- exact tie, even floor
    have htie : 2 * (n % d) = d := by omega
    have htie' : 2 * ((n % d : ℤ) : ℚ) = (d : ℚ) := by exact_mod_cast htie
    rw [hq, show ((n / d : ℤ) : ℚ) - (((n / d : ℤ) : ℚ) + ((n % d : ℤ) : ℚ) / (d : ℚ)) =
        -(((n % d : ℤ) : ℚ) / (d : ℚ)) by ring, abs_neg,
      abs_of_nonneg (div_nonneg hrq0 hdq.le), div_le_div_iff₀ hdq (by norm_num)]
    linarith
  · -- exact tie, odd floor rounds up
    have htie : 2 * (n % d) = d := by omega
    have htie' : 2 * ((n % d : ℤ) : ℚ) = (d : ℚ) := by exact_mod_cast htie
    push_cast
    rw [hq, show ((n / d : ℤ) : ℚ) + 1 - (((n / d : ℤ) : ℚ) + ((n % d : ℤ) : ℚ) / (d : ℚ)) =
        1 - ((n % d : ℤ) : ℚ) / (d : ℚ) by ring,
      abs_of_nonneg (by rw [sub_nonneg]; exact (div_le_one hdq).mpr hrqd.le)]
    have heq : ((n % d : ℤ) : ℚ) / (d : ℚ) = 1 / 2 := by
      rw [div_eq_iff hdq.ne']
      linarith
    rw [heq]
    norm_num

theorem round6_spec (q : ℚ) : |(round6 q : ℚ) - q * 1000000| ≤ 1 / 2 := by
  have hd : (0 : ℤ) < (q.den : ℤ) := by exact_mod_cast q.den_pos
  have h := rheScaled_bound (n := q.num * 1000000) hd
  have hv : ((q.num * 1000000 : ℤ) : ℚ) / ((q.den : ℤ) : ℚ) = q * 1000000 := by
    push_cast
    rw [mul_comm (q.num : ℚ) 1000000, mul_div_assoc, Rat.num_div_den]
    ring
  rw [hv] at h
  exact h

theorem val6_bound (q : ℚ) : |val6 q - q| ≤ 1 / 1000000 := by
  have h := round6_spec q
  have hrw : val6 q - q = ((round6 q : ℚ) - q * 1000000) / 1000000 := by
    unfold val6
    field_simp
    ring
  rw [hrw, abs_div, abs_of_pos (by norm_num : (0 : ℚ) < 1000000)]
  calc |(round6 q : ℚ) - q * 1000000| / 1000000 ≤ (1 / 2) / 1000000 := by gcongr
    _ ≤ 1 / 1000000 := by norm_num

theorem round6_nonneg {q : ℚ} (h : 0 ≤ q) : 0 ≤ round6 q := by
  by_contra hneg
  push_neg at hneg
  have h1 : round6 q ≤ -1 := by omega
  have h1' : (round6 q : ℚ) ≤ -1 := by exact_mod_cast h1
  have h2 := round6_spec q
  rw [abs_le] at h2
  have h3 : (0 : ℚ) ≤ q * 1000000 := by positivity
  linarith [h2.1]

theorem round6_le_million {q : ℚ} (h : q ≤ 1) : round6 q ≤ 1000000 := by
  by_contra hgt
  push_neg at hgt
  have h1 : (1000001 : ℚ) ≤ (round6 q : ℚ) := by exact_mod_cast hgt
  have h2 := round6_spec q
  rw [abs_le] at h2
  have h3 : q * 1000000 ≤ 1000000 := by
    have := mul_le_mul_of_nonneg_right h (by norm_num : (0 : ℚ) ≤ 1000000)
    linarith
  linarith [h2.2]

theorem clamp01_nonneg (q : ℚ) : 0 ≤ clamp01 q := le_max_left _ _

theorem clamp01_le_one (q : ℚ) : clamp01 q ≤ 1 := by
  unfold clamp01
  rcases le_total 1 q with h | h
  · simp [min_eq_left h]
  · simp [min_eq_right h]
    exact h

theorem clamp01_eq_self {q : ℚ} (h0 : 0 ≤ q) (h1 : q ≤ 1) : clamp01 q = q := by
  unfold clamp01
  rw [min_eq_right h1, max_eq_right h0]

theorem clampF_nonneg (x : F) : 0 ≤ clampF x := by
  cases x <;> simp [clampF, clamp01_nonneg]

theorem clampF_le_one (x : F) : clampF x ≤ 1 := by
  cases x <;> simp [clampF, clamp01_le_one]

/-! ## Helper lemmas: formatting and parsing back -/

theorem fmt6_def (q : ℚ) :
    fmt6 q = natToDigits ((round6 q).toNat / 1000000) ++
      '.' :: (List.replicate (6 - (natToDigits ((round6 q).toNat % 1000000)).length) '0' ++
        natToDigits ((round6 q).toNat % 1000000)) := rfl

theorem fmt6_mem {q : ℚ} : ∀ c ∈ fmt6 q, isDigit c = true ∨ c = '.' := by
  intro c hc
  rw [fmt6_def] at hc
  rcases List.mem_append.1 hc with h | h
  · exact Or.inl (natToDigits_digits c h)
  · rcases List.mem_cons.1 h with rfl | h
    · exact Or.inr rfl
    · rcases List.mem_append.1 h with h | h
      · rw [List.eq_of_mem_replicate h]; exact Or.inl (by decide)
      · exact Or.inl (natToDigits_digits c h)

theorem fmt6_no_ws {q : ℚ} : ∀ c ∈ fmt6 q, isWS c = false := by
  intro c hc
  rcases fmt6_mem c hc with h | rfl
  · exact (isDigit_facts h).1
  · decide

theorem fmt6_ne_nil (q : ℚ) : fmt6 q ≠ [] := by
  rw [fmt6_def]
  intro h
  rcases List.append_eq_nil.1 h with ⟨h1, _⟩
  exact natToDigits_ne_nil _ h1

theorem pyFloat?_not_sign {c : Char} (h1 : c ≠ '+') (h2 : c ≠ '-') (cs : List Char) :
    pyFloat? (c :: cs) = pyFloatCore (c :: cs) := by
  unfold pyFloat?
  split
  · rename_i heq
    injection heq with hh _
    exact absurd hh h1
  · rename_i heq
    injection heq with hh _
    exact absurd hh h2
  · rfl

theorem pyFloat?_fmt6 {q : ℚ} (h0 : 0 ≤ q) : pyFloat? (fmt6 q) = some (val6 q) := by
  have hAne := natToDigits_ne_nil ((round6 q).toNat / 1000000)
  have hAdig : ∀ c ∈ natToDigits ((round6 q).toNat / 1000000), isDigit c = true :=
    fun c hc => natToDigits_digits c hc
  have hBdig : ∀ c ∈ List.replicate
      (6 - (natToDigits ((round6 q).toNat % 1000000)).length) '0' ++
      natToDigits ((round6 q).toNat % 1000000), isDigit c = true := by
    intro c hc
    rcases List.mem_append.1 hc with h | h
    · rw [List.eq_of_mem_replicate h]; decide
    · exact natToDigits_digits c h
  -- the leading character is a digit, so the sign match falls through
  obtain ⟨c0, A', hA'⟩ : ∃ c0 A',
      natToDigits ((round6 q).toNat / 1000000) = c0 :: A' := by
    cases hAc : natToDigits ((round6 q).toNat / 1000000) with
    | nil => exact absurd hAc hAne
    | cons c0 A' => exact ⟨c0, A', rfl⟩
  have hc0 : isDigit c0 = true := hAdig c0 (by rw [hA']; exact List.mem_cons_self _ _)
  have hfacts := isDigit_facts hc0
  have hstep1 : pyFloat? (fmt6 q) = pyFloatCore (fmt6 q) := by
    rw [fmt6_def, hA', List.cons_append]
    exact pyFloat?_not_sign hfacts.2.2.2.2.1 hfacts.2.2.2.2.2 _
  have hnE : ∀ c ∈ fmt6 q, (fun c => c = 'e' || c = 'E' : Char → Bool) c = false := by
    intro c hc
    rcases fmt6_mem c hc with h | rfl
    · have hf := isDigit_facts h
      simp [hf.2.2.1, hf.2.2.2.1]
    · decide
  have hstep2 : pyFloatCore (fmt6 q) = parseMant (fmt6 q) := by
    unfold pyFloatCore
    rw [breakAt_none hnE]
  have hdot : breakAt (fun c => c = '.') (fmt6 q) =
      (natToDigits ((round6 q).toNat / 1000000),
       some (List.replicate (6 - (natToDigits ((round6 q).toNat % 1000000)).length) '0' ++
         natToDigits ((round6 q).toNat % 1000000))) := by
    rw [fmt6_def]
    exact breakAt_found _ (by decide) _
      (fun c hc => by simp [(isDigit_facts (hAdig c hc)).2.1])
  have hstep3 : parseMant (fmt6 q) =
      some ((digitsToNat (natToDigits ((round6 q).toNat / 1000000)) : ℚ) +
        (digitsToNat (List.replicate
            (6 - (natToDigits ((round6 q).toNat % 1000000)).length) '0' ++
          natToDigits ((round6 q).toNat % 1000000)) : ℚ) /
        10 ^ (List.replicate (6 - (natToDigits ((round6 q).toNat % 1000000)).length) '0' ++
          natToDigits ((round6 q).toNat % 1000000)).length) := by
    unfold parseMant
    rw [hdot]
    dsimp only
    rw [if_pos ⟨Or.inl hAne, List.all_eq_true.2 hAdig, List.all_eq_true.2 hBdig⟩]
  -- arithmetic: the parsed value is `val6 q`
  have hlen6 : (natToDigits ((round6 q).toNat % 1000000)).length ≤ 6 :=
    natToDigits_length_le (by norm_num)
      (Nat.mod_lt _ (by norm_num))
  have hBlen : (List.replicate (6 - (natToDigits ((round6 q).toNat % 1000000)).length) '0' ++
      natToDigits ((round6 q).toNat % 1000000)).length = 6 := by
    simp only [List.length_append, List.length_replicate]
    omega
  have hBval : digitsToNat (List.replicate
      (6 - (natToDigits ((round6 q).toNat % 1000000)).length) '0' ++
      natToDigits ((round6 q).toNat % 1000000)) = (round6 q).toNat % 1000000 := by
    rw [digitsToNat_zeros, digitsToNat_natToDigits]
  rw [hstep1, hstep2, hstep3, hBlen, hBval, digitsToNat_natToDigits]
  congr 1
  have hnn : (0 : ℤ) ≤ round6 q := round6_nonneg h0
  have hcast : (((round6 q).toNat : ℕ) : ℚ) = (round6 q : ℚ) := by
    exact_mod_cast Int.toNat_of_nonneg hnn
  have hsplit : ((round6 q).toNat : ℚ) =
      1000000 * (((round6 q).toNat / 1000000 : ℕ) : ℚ) +
      (((round6 q).toNat % 1000000 : ℕ) : ℚ) := by
    exact_mod_cast (Nat.div_add_mod (round6 q).toNat 1000000).symm
  unfold val6
  rw [show ((10 : ℚ) ^ (6 : ℕ)) = 1000000 by norm_num]
  rw [← hcast]
  field_simp
  linarith [hsplit]

/-! ## Helper lemmas: scan, reader, encoders, cube root -/

theorem scan_samples {ls : List (List Char)} {ts : List (ℚ × ℚ × ℚ)}
    (h : List.Forall₂ (fun l t => classify l = LineAct.sample t) ls ts) :
    ∀ (s : ℤ) (acc : List (ℚ × ℚ × ℚ)), scan ls s acc = .ok (s, acc ++ ts) := by
  induction h with
  | nil => intro s acc; simp [scan]
  | @cons l t ls' ts' h1 _ ih =>
    intro s acc
    calc scan (l :: ls') s acc = scan ls' s (acc ++ [t]) := by
          show (match classify l with
            | LineAct.skip => scan ls' s acc
            | LineAct.discard => scan ls' s acc
            | LineAct.setSize n => scan ls' n acc
            | LineAct.raiseErr => Except.error ()
            | LineAct.sample t => scan ls' s (acc ++ [t])) = scan ls' s (acc ++ [t])
          rw [h1]
      _ = Except.ok (s, (acc ++ [t]) ++ ts') := ih s (acc ++ [t])
      _ = Except.ok (s, acc ++ t :: ts') := by simp

theorem readFrom_eq (data : List ℕ) :
    ∀ (n i : ℕ), readFrom data i n =
      (List.range (min n (data.length / 8 - i))).map (fun k => decodePixel data (i + k)) := by
  intro n
  induction n with
  | zero => intro i; simp [readFrom]
  | succ n ih =>
    intro i
    by_cases hlt : data.length < 8 * i + 8
    · have h8 : data.length / 8 ≤ i := by
        rcases Nat.lt_or_ge (data.length / 8) (i + 1) with h | h
        · omega
        · exfalso
          have := (Nat.le_div_iff_mul_le (by norm_num : 0 < 8)).1 h
          omega
      rw [readFrom, if_pos hlt]
      have : data.length / 8 - i = 0 := by omega
      simp [this]
    · push_neg at hlt
      have h8 : i + 1 ≤ data.length / 8 :=
        (Nat.le_div_iff_mul_le (by norm_num : 0 < 8)).2 (by omega)
      rw [readFrom, if_neg (by omega), ih (i + 1)]
      have hmin : min (n + 1) (data.length / 8 - i) =
          min n (data.length / 8 - (i + 1)) + 1 := by omega
      rw [hmin, List.range_succ_eq_map]
      simp only [List.map_cons, List.map_map, Nat.add_zero]
      congr 1
      apply List.map_congr_left
      intro k _
      simp [Function.comp, Nat.succ_eq_add_one]
      ring_nf

theorem read_leica_lut_eq (buf : List ℕ) :
    read_leica_lut buf =
      ((List.range (min (64 ^ 3) (buf.length / 8))).map (fun k => decodePixel buf k), 64) := by
  show (readFrom buf 0 (64 ^ 3), (64 : ℕ)) = _
  rw [readFrom_eq]
  simp

theorem decLE_u32le {n : ℕ} (h : n < 2 ^ 32) : decLE (u32le n) = n := by
  simp only [u32le, decLE]
  omega

theorem decLE_u64le {n : ℕ} (h : n < 2 ^ 64) : decLE (u64le n) = n := by
  simp only [u64le, decLE]
  omega

theorem f32le_length (q : ℚ) : (f32le q).length = 4 := rfl

theorem flatMap_triple_length (data : List (ℚ × ℚ × ℚ)) :
    (data.flatMap (fun t => f32le t.1 ++ f32le t.2.1 ++ f32le t.2.2)).length =
      12 * data.length := by
  induction data with
  | nil => rfl
  | cons t ts ih =>
    simp only [List.flatMap_cons, List.length_append, List.length_cons, ih, f32le_length]
    ring

theorem icbrt_cube (k : ℕ) : icbrt (k ^ 3) = k := by
  unfold icbrt
  have hle : k ≤ Nat.findGreatest (fun m => m ^ 3 ≤ k ^ 3) (k ^ 3) :=
    Nat.le_findGreatest (Nat.le_self_pow (by norm_num) k) le_rfl
  have hcube : (Nat.findGreatest (fun m => m ^ 3 ≤ k ^ 3) (k ^ 3)) ^ 3 ≤ k ^ 3 :=
    Nat.findGreatest_spec (P := fun m => m ^ 3 ≤ k ^ 3) (m := 0) (Nat.zero_le _) (by simp)
  have hge : Nat.findGreatest (fun m => m ^ 3 ≤ k ^ 3) (k ^ 3) ≤ k :=
    (Nat.pow_le_pow_iff_left (by norm_num)).1 hcube
  omega

theorem cbrtRound_cube (k : ℕ) : cbrtRound (k ^ 3) = k := by
  unfold cbrtRound
  rw [icbrt_cube]
  have h1 : k ^ 3 < (k + 1) ^ 3 := Nat.pow_lt_pow_left (by omega) (by norm_num)
  rw [if_neg (by omega)]

/-! ## Claim theorems -/

theorem float16_def (h16 : ℕ) :
    float16_to_float32 h16 =
      if (h16 >>> 10) &&& 0x1f = 0 then
        (if h16 &&& 0x3ff = 0 then (if (h16 >>> 15) &&& 1 = 1 then F.negZero else F.val 0)
         else if (h16 >>> 15) &&& 1 = 1 then
           F.val (-(((h16 &&& 0x3ff : ℕ) : ℚ) / 1024 * (2 : ℚ) ^ (-14 : ℤ)))
         else F.val (((h16 &&& 0x3ff : ℕ) : ℚ) / 1024 * (2 : ℚ) ^ (-14 : ℤ)))
      else if (h16 >>> 10) &&& 0x1f = 31 then
        (if (h16 >>> 15) &&& 1 = 1 then F.negInf else F.inf)
      else if (h16 >>> 15) &&& 1 = 1 then
        F.val (-((1 + ((h16 &&& 0x3ff : ℕ) : ℚ) / 1024) *
          (2 : ℚ) ^ ((((h16 >>> 10) &&& 0x1f : ℕ) : ℤ) - 15)))
      else
        F.val ((1 + ((h16 &&& 0x3ff : ℕ) : ℚ) / 1024) *
          (2 : ℚ) ^ ((((h16 >>> 10) &&& 0x1f : ℕ) : ℤ) - 15)) := rfl

/-- C2: the half-float decoder maps `0x0000 → 0.0`, `0x8000 → -0.0`,
`0x3C00 → 1.0`, `0x7C00 → +inf`, `0xFC00 → -inf`, `0x0001 → 2^-24` (the smallest
positive subnormal), and on every 16-bit input with `0 < exponent < 31` returns
`sign * (1 + mantissa/1024) * 2^(exponent-15)`, and on `exponent = 0` with
nonzero mantissa returns `sign * (mantissa/1024) * 2^-14`. -/
theorem C2_half_float_decode :
    (float16_to_float32 0x0000 = F.val 0) ∧
    (float16_to_float32 0x8000 = F.negZero) ∧
    (float16_to_float32 0x3C00 = F.val 1) ∧
    (float16_to_float32 0x7C00 = F.inf) ∧
    (float16_to_float32 0xFC00 = F.negInf) ∧
    (float16_to_float32 0x0001 = F.val (1 / 2 ^ 24)) ∧
    (∀ h16 : ℕ, h16 < 2 ^ 16 → 0 < (h16 >>> 10) &&& 0x1f → (h16 >>> 10) &&& 0x1f < 31 →
      float16_to_float32 h16 =
        F.val ((if (h16 >>> 15) &&& 1 = 1 then (-1 : ℚ) else 1) *
          ((1 + ((h16 &&& 0x3ff : ℕ) : ℚ) / 1024) *
            (2 : ℚ) ^ ((((h16 >>> 10) &&& 0x1f : ℕ) : ℤ) - 15)))) ∧
    (∀ h16 : ℕ, h16 < 2 ^ 16 → (h16 >>> 10) &&& 0x1f = 0 → h16 &&& 0x3ff ≠ 0 →
      float16_to_float32 h16 =
        F.val ((if (h16 >>> 15) &&& 1 = 1 then (-1 : ℚ) else 1) *
          (((h16 &&& 0x3ff : ℕ) : ℚ) / 1024 * (2 : ℚ) ^ (-14 : ℤ)))) := by
  refine ⟨by decide, by decide, ?_, by decide, by decide, ?_, ?_, ?_⟩
  · have e1 : ((0x3C00 : ℕ) >>> 10) &&& 0x1f = 15 := by decide
    have e2 : (0x3C00 : ℕ) &&& 0x3ff = 0 := by decide
    have e3 : ((0x3C00 : ℕ) >>> 15) &&& 1 = 0 := by decide
    rw [float16_def, e1, e2, e3]
    norm_num
  · have e1 : ((0x0001 : ℕ) >>> 10) &&& 0x1f = 0 := by decide
    have e2 : (0x0001 : ℕ) &&& 0x3ff = 1 := by decide
    have e3 : ((0x0001 : ℕ) >>> 15) &&& 1 = 0 := by decide
    rw [float16_def, e1, e2, e3]
    norm_num
  · intro h16 _ he0 he31
    rw [float16_def, if_neg (by omega), if_neg (by omega)]
    by_cases hs : (h16 >>> 15) &&& 1 = 1
    · rw [if_pos hs, if_pos hs]
      congr 1
      ring
    · rw [if_neg hs, if_neg hs]
      congr 1
      ring
  · intro h16 _ he0 hm
    rw [float16_def, if_pos he0, if_neg hm]
    by_cases hs : (h16 >>> 15) &&& 1 = 1
    · rw [if_pos hs, if_pos hs]
      congr 1
      ring
    · rw [if_neg hs, if_neg hs]
      congr 1
      ring

theorem C2_half_float_decode_witness :
    ((0x3C01 : ℕ) < 2 ^ 16 ∧ 0 < ((0x3C01 : ℕ) >>> 10) &&& 0x1f ∧
      ((0x3C01 : ℕ) >>> 10) &&& 0x1f < 31 ∧
      float16_to_float32 0x3C01 =
        F.val ((if ((0x3C01 : ℕ) >>> 15) &&& 1 = 1 then (-1 : ℚ) else 1) *
          ((1 + (((0x3C01 : ℕ) &&& 0x3ff : ℕ) : ℚ) / 1024) *
            (2 : ℚ) ^ (((((0x3C01 : ℕ) >>> 10) &&& 0x1f : ℕ) : ℤ) - 15)))) ∧
    ((0x0001 : ℕ) < 2 ^ 16 ∧ ((0x0001 : ℕ) >>> 10) &&& 0x1f = 0 ∧
      (0x0001 : ℕ) &&& 0x3ff ≠ 0 ∧
      float16_to_float32 0x0001 =
        F.val ((if ((0x0001 : ℕ) >>> 15) &&& 1 = 1 then (-1 : ℚ) else 1) *
          ((((0x0001 : ℕ) &&& 0x3ff : ℕ) : ℚ) / 1024 * (2 : ℚ) ^ (-14 : ℤ)))) := by
  refine ⟨⟨by decide, by decide, by decide, ?_⟩, ⟨by decide, by decide, by decide, ?_⟩⟩
  · exact C2_half_float_decode.2.2.2.2.2.2.1 0x3C01 (by decide) (by decide) (by decide)
  · exact C2_half_float_decode.2.2.2.2.2.2.2 0x0001 (by decide) (by decide) (by decide)

/-- C5: the spec requires NaN for exponent 31 with nonzero mantissa, but the code
returns a signed infinity there (the `elif exp == 31` branch ignores the
mantissa), so the decoded value of `0x7C01`/`0xFC01` is ±infinity, never NaN. -/
theorem C5_nan_inputs_decode_to_infinity :
    float16_to_float32 0x7C01 = F.inf ∧ float16_to_float32 0x7C01 ≠ F.nan ∧
    float16_to_float32 0xFC01 = F.negInf ∧ float16_to_float32 0xFC01 ≠ F.nan := by
  exact ⟨by decide, by decide, by decide, by decide⟩

/-- C10: on every byte buffer, `read_leica_lut` returns exactly
`min(64^3, ⌊len/8⌋)` decoded RGBA pixels (the k-th being the four half-floats at
byte offset `8k`) together with the hardcoded edge length 64. It is total (the
embedding returns a plain pair, never an error), and a shorter buffer yields a
prefix: the decoded pixels do not change when the buffer is extended. -/
theorem C10_raw_reader_closed_form (buf : List ℕ) :
    read_leica_lut buf =
      ((List.range (min (64 ^ 3) (buf.length / 8))).map (fun k => decodePixel buf k), 64) ∧
    (read_leica_lut buf).1.length = min (64 ^ 3) (buf.length / 8) ∧
    (∀ ext : List ℕ, ∀ k, k < buf.length / 8 →
      decodePixel (buf ++ ext) k = decodePixel buf k) := by
  refine ⟨read_leica_lut_eq buf, ?_, ?_⟩
  · rw [read_leica_lut_eq]
    simp
  · intro ext k hk
    have hb : (k + 1) * 8 ≤ buf.length := (Nat.le_div_iff_mul_le (by norm_num)).1 hk
    have h1 : ∀ j, j < buf.length → (buf ++ ext).getD j 0 = buf.getD j 0 :=
      fun j hj => List.getD_append _ _ _ _ hj
    unfold decodePixel u16at
    rw [h1 _ (by omega), h1 _ (by omega), h1 _ (by omega), h1 _ (by omega),
        h1 _ (by omega), h1 _ (by omega), h1 _ (by omega), h1 _ (by omega)]

theorem C10_raw_reader_closed_form_witness :
    (read_leica_lut (List.replicate 16 0)).1.length =
      min (64 ^ 3) ((List.replicate (16 : ℕ) (0 : ℕ)).length / 8) ∧
    1 < (List.replicate (16 : ℕ) (0 : ℕ)).length / 8 ∧
    decodePixel (List.replicate 16 0 ++ [7]) 1 = decodePixel (List.replicate 16 0) 1 := by
  exact ⟨(C10_raw_reader_closed_form _).2.1, by decide,
    (C10_raw_reader_closed_form _).2.2 [7] 1 (by decide)⟩

/-- C4 (code-bug evidence): on a buffer one pixel short of the expected
`8 * 64^3` bytes, `read_leica_lut` returns `64^3 - 1` samples and the edge
length 64 in the very same shape a complete read returns — its result type
carries no incomplete-read indication at all, contrary to the spec's
requirement of an explicit signal. -/
theorem C4_short_buffer_silently_truncated :
    (read_leica_lut (List.replicate (8 * 64 ^ 3 - 8) 0)).2 = 64 ∧
    (read_leica_lut (List.replicate (8 * 64 ^ 3 - 8) 0)).1.length = 64 ^ 3 - 1 := by
  constructor
  · rfl
  · rw [read_leica_lut_eq]
    simp only [List.length_map, List.length_range, List.length_replicate]
    norm_num

set_option maxHeartbeats 1600000 in
/-- C1: for every edge length `E < 2^32` and every RGB sample list of length
`E^3`, the binary writer's blob has length `64 + 12*E^3`, starts with the 8
ASCII magic bytes, carries version 1 at 0x08, `E` at 0x0C, format tag 3 at
0x10, the fixed data offset 0x40 as a little-endian uint64 at 0x28, zeros in
all remaining header bytes, and from offset 0x40 exactly the samples as
consecutive little-endian 32-bit floats in input order, with no alpha and no
padding. -/
theorem C1_binary_writer_layout (E : ℕ) (data : List (ℚ × ℚ × ℚ))
    (hE : E < 2 ^ 32) (hlen : data.length = E ^ 3) :
    binLayoutOK E data (writeBin E data) := by
  refine ⟨?_, rfl, rfl, ?_, rfl, rfl, rfl, rfl, rfl⟩
  · show (writeBin E data).length = 64 + 12 * E ^ 3
    have hw : writeBin E data =
        (magicBytes ++ u32le 1 ++ u32le E ++ [3] ++ List.replicate 23 0 ++
          u64le 64 ++ List.replicate 16 0) ++
        data.flatMap (fun t => f32le t.1 ++ f32le t.2.1 ++ f32le t.2.2) := rfl
    rw [hw, List.length_append, flatMap_triple_length, hlen]
    simp [magicBytes, u32le, u64le]
  · show decLE (((writeBin E data).drop 12).take 4) = E
    have h4 : ((writeBin E data).drop 12).take 4 =
        [E % 256, E / 256 % 256, E / 256 ^ 2 % 256, E / 256 ^ 3 % 256] := rfl
    rw [h4]
    simp only [decLE, show (256 : ℕ) ^ 2 = 65536 from rfl,
      show (256 : ℕ) ^ 3 = 16777216 from rfl]
    omega

theorem C1_binary_writer_layout_witness :
    ((1 : ℕ) < 2 ^ 32 ∧ ([((0 : ℚ), (0 : ℚ), (0 : ℚ))] : List (ℚ × ℚ × ℚ)).length = 1 ^ 3) ∧
    binLayoutOK 1 [((0 : ℚ), (0 : ℚ), (0 : ℚ))] (writeBin 1 [((0 : ℚ), (0 : ℚ), (0 : ℚ))]) :=
  ⟨⟨by decide, by decide⟩, C1_binary_writer_layout 1 _ (by decide) (by decide)⟩

theorem convert_eq_of_scan {doc : List (List Char)} {size0 : ℤ} {data : List (ℚ × ℚ × ℚ)}
    (hscan : scan doc (-1) [] = .ok (size0, data)) :
    convert_cube_to_bin doc =
      if size0 = -1 then
        if (cbrtRound data.length : ℤ) ^ 3 = data.length then
          if (data.length : ℤ) ≠ (cbrtRound data.length : ℤ) ^ 3 then
            .ok (.countMismatch ((cbrtRound data.length : ℤ) ^ 3) data.length)
          else .ok (.success (writeBin (cbrtRound data.length) data))
        else .ok (.sizeUndeterminable data.length)
      else
        if (data.length : ℤ) ≠ size0 ^ 3 then .ok (.countMismatch (size0 ^ 3) data.length)
        else .ok (.success (writeBin size0.toNat data)) := by
  unfold convert_cube_to_bin
  rw [hscan]

/-- C3 counterexample: `LUT_3D_SIZE -1` declares the size value -1, which
collides with the undeclared-size sentinel. On the document below (declared
size -1, one data line) the claim requires a SizeMismatch failure (1 ≠ (-1)^3),
but the conversion succeeds, silently inferring size 1. -/
theorem C3_sentinel_counterexample :
    classify "LUT_3D_SIZE -1".data = LineAct.setSize (-1) ∧
    isSuccess (convert_cube_to_bin ["LUT_3D_SIZE -1".data, "0 0 0".data]) = true := by
  exact ⟨by decide, by decide⟩

/-- C3 (amended): when the scan declared a size value other than -1, the
conversion fails with the count-mismatch error — reporting expected `size^3`
against the actual count — exactly when the parsed sample count differs from
`size^3`; when no size was declared (the sentinel -1, which a declared value of
-1 cannot be distinguished from), the conversion succeeds with the exact
integer cube root of the sample count when one exists (27 samples infer edge 3)
and fails with the undeterminable-size error when none exists (26 samples). -/
theorem C3_size_resolution (doc : List (List Char)) (size0 : ℤ) (data : List (ℚ × ℚ × ℚ))
    (hscan : scan doc (-1) [] = .ok (size0, data)) :
    (size0 ≠ -1 →
      ((convert_cube_to_bin doc = .ok (.countMismatch (size0 ^ 3) data.length) ↔
        (data.length : ℤ) ≠ size0 ^ 3) ∧
       ((data.length : ℤ) = size0 ^ 3 →
        convert_cube_to_bin doc = .ok (.success (writeBin size0.toNat data))))) ∧
    (size0 = -1 →
      ((∀ k : ℕ, k ^ 3 ≠ data.length) →
        convert_cube_to_bin doc = .ok (.sizeUndeterminable data.length)) ∧
      (∀ k : ℕ, k ^ 3 = data.length →
        convert_cube_to_bin doc = .ok (.success (writeBin k data)))) := by
  rw [convert_eq_of_scan hscan]
  constructor
  · intro hne
    rw [if_neg hne]
    by_cases hc : (data.length : ℤ) = size0 ^ 3
    · rw [if_neg (by omega)]
      constructor
      · constructor
        · intro heq
          exfalso
          simp at heq
        · intro hne'
          exact absurd hc hne'
      · intro _
        rfl
    · rw [if_pos hc]
      exact ⟨⟨fun _ => hc, fun _ => rfl⟩, fun heq => absurd heq hc⟩
  · intro h1
    subst h1
    rw [if_pos rfl]
    constructor
    · intro hnone
      have hne : ¬((cbrtRound data.length : ℤ) ^ 3 = data.length) := by
        intro h
        exact hnone (cbrtRound data.length) (by exact_mod_cast h)
      rw [if_neg hne]
    · intro k hk
      have hck : cbrtRound data.length = k := by
        rw [← hk, cbrtRound_cube]
      rw [hck, if_pos (by exact_mod_cast hk), if_neg (by push_neg; exact_mod_cast hk.symm)]

theorem C3_size_resolution_witness :
    scan ["LUT_3D_SIZE 4".data] (-1) [] = .ok (4, []) ∧ (4 : ℤ) ≠ -1 ∧
    convert_cube_to_bin ["LUT_3D_SIZE 4".data] = .ok (.countMismatch 64 0) := by
  refine ⟨by decide, by decide, ?_⟩
  have h := ((C3_size_resolution ["LUT_3D_SIZE 4".data] 4 [] (by decide)).1 (by decide)).1
  have h2 := h.mpr (by decide)
  simpa using h2

theorem convLoop_ok : ∀ (docs : List (List (List Char))),
    (∀ d ∈ docs, convert_cube_to_bin d ≠ .error ()) →
    ∀ acc : ℕ, convLoop docs acc =
      .ok (acc + docs.countP (fun d => isSuccess (convert_cube_to_bin d))) := by
  intro docs
  induction docs with
  | nil => intro _ acc; simp [convLoop]
  | cons d ds ih =>
    intro h acc
    have hd := h d (List.mem_cons_self _ _)
    have hds := fun x hx => h x (List.mem_cons_of_mem _ hx)
    cases hconv : convert_cube_to_bin d with
    | error e =>
      cases e
      exact absurd hconv hd
    | ok out =>
      cases out with
      | success b =>
        simp only [convLoop, hconv]
        rw [ih hds (acc + 1), List.countP_cons]
        have hp : isSuccess (convert_cube_to_bin d) = true := by simp [isSuccess, hconv]
        simp only [hp, if_true]
        congr 1
        omega
      | sizeUndeterminable c =>
        simp only [convLoop, hconv]
        rw [ih hds acc, List.countP_cons]
        simp [isSuccess, hconv]
      | countMismatch e a =>
        simp only [convLoop, hconv]
        rw [ih hds acc, List.countP_cons]
        simp [isSuccess, hconv]

/-- C9 counterexample: a batch of three documents whose middle file carries
`LUT_3D_SIZE x` — on which `int('x')` raises an uncaught ValueError — aborts
the whole run: no tally is produced at all, although the two other files
convert successfully; the claim requires 2 reported successes out of 3
attempts with all 3 files processed. -/
theorem C9_abort_counterexample :
    mainConvert [["LUT_3D_SIZE 1".data, "0 0 0".data],
                 ["LUT_3D_SIZE x".data, "0 0 0".data],
                 ["LUT_3D_SIZE 1".data, "1 1 1".data]] = .error () ∧
    isSuccess (convert_cube_to_bin ["LUT_3D_SIZE 1".data, "0 0 0".data]) = true ∧
    isSuccess (convert_cube_to_bin ["LUT_3D_SIZE 1".data, "1 1 1".data]) = true := by
  exact ⟨by decide, by decide, by decide⟩

/-- C9 (amended): for every batch in which no file's conversion raises an
uncaught exception (in particular, no CUBE file carries a `LUT_3D_SIZE` line
whose size token is not a valid integer), the orchestrator processes every
file, counts exactly the successful conversions, and reports that count
together with the number of attempts; a raising file instead aborts the batch.
The raw-to-CUBE orchestrator catches per-file exceptions and processes every
buffer. -/
theorem C9_batch_tally (docs : List (List (List Char)))
    (h : ∀ d ∈ docs, convert_cube_to_bin d ≠ .error ()) :
    mainConvert docs =
      .ok (docs.countP (fun d => isSuccess (convert_cube_to_bin d)), docs.length) ∧
    ∀ bufs : List (List ℕ), (mainExtract bufs).length = bufs.length := by
  constructor
  · unfold mainConvert
    rw [convLoop_ok docs h 0]
    simp [Except.map]
  · intro bufs
    simp [mainExtract]

theorem C9_batch_tally_witness :
    (∀ d ∈ [["LUT_3D_SIZE 1".data, "0 0 0".data],
            ["LUT_3D_SIZE 2".data, "0 0 0".data],
            ["LUT_3D_SIZE 1".data, "1 1 1".data]], convert_cube_to_bin d ≠ .error ()) ∧
    mainConvert [["LUT_3D_SIZE 1".data, "0 0 0".data],
                 ["LUT_3D_SIZE 2".data, "0 0 0".data],
                 ["LUT_3D_SIZE 1".data, "1 1 1".data]] = .ok (2, 3) := by
  refine ⟨by decide, ?_⟩
  exact ((C9_batch_tally _ (by decide)).1).trans (by decide)

/-- C6: a CUBE document declaring `LUT_3D_SIZE 2` followed by 8 valid RGB data
lines parses to exactly those 8 samples in order and converts successfully;
re-serialising the samples through the CUBE writer produces data lines whose
tokens are the 6-digit renderings of the clamped components, and for every
component in [0,1] the re-serialised value parses back within 1e-6 of the
original. -/
theorem C6_roundtrip (ls : List (List Char)) (ts : List (ℚ × ℚ × ℚ)) (title : List Char)
    (hlen : ts.length = 8)
    (hcl : List.Forall₂ (fun l t => classify l = LineAct.sample t) ls ts) :
    scan ("LUT_3D_SIZE 2".data :: ls) (-1) [] = .ok (2, ts) ∧
    convert_cube_to_bin ("LUT_3D_SIZE 2".data :: ls) = .ok (.success (writeBin 2 ts)) ∧
    (write_cube_file (ts.map (fun t => (F.val t.1, F.val t.2.1, F.val t.2.2, F.val 0)))
        2 title).drop 3 =
      ts.map (fun t => fmt6 (clamp01 t.1) ++ ' ' :: fmt6 (clamp01 t.2.1) ++ ' ' ::
        fmt6 (clamp01 t.2.2)) ∧
    (∀ t ∈ ts, ∀ c ∈ [t.1, t.2.1, t.2.2], 0 ≤ c → c ≤ 1 →
      pyFloat? (fmt6 (clamp01 c)) = some (val6 c) ∧ |val6 c - c| ≤ 1 / 1000000) := by
  have hsize : classify "LUT_3D_SIZE 2".data = LineAct.setSize 2 := by decide
  have hscan : scan ("LUT_3D_SIZE 2".data :: ls) (-1) [] = .ok (2, ts) := by
    calc scan ("LUT_3D_SIZE 2".data :: ls) (-1) [] = scan ls 2 [] := by
          show (match classify "LUT_3D_SIZE 2".data with
            | LineAct.skip => scan ls (-1) []
            | LineAct.discard => scan ls (-1) []
            | LineAct.setSize n => scan ls n []
            | LineAct.raiseErr => Except.error ()
            | LineAct.sample t => scan ls (-1) ([] ++ [t])) = scan ls 2 []
          rw [hsize]
      _ = .ok (2, [] ++ ts) := scan_samples hcl 2 []
      _ = .ok (2, ts) := by simp
  refine ⟨hscan, ?_, ?_, ?_⟩
  · rw [convert_eq_of_scan hscan, if_neg (by norm_num),
      if_neg (by push_neg; rw [hlen]; norm_num)]
    rfl
  · simp [write_cube_file, clampF]
  · intro t _ c _ h0 h1
    constructor
    · rw [pyFloat?_fmt6 (clamp01_nonneg c), clamp01_eq_self h0 h1]
    · exact val6_bound c

theorem C6_roundtrip_witness :
    ([((0:ℚ),(0:ℚ),(0:ℚ)), ((0:ℚ),(0:ℚ),(1:ℚ)), ((0:ℚ),(1:ℚ),(0:ℚ)), ((0:ℚ),(1:ℚ),(1:ℚ)),
      ((1:ℚ),(0:ℚ),(0:ℚ)), ((1:ℚ),(0:ℚ),(1:ℚ)), ((1:ℚ),(1:ℚ),(0:ℚ)), ((1:ℚ),(1:ℚ),(1:ℚ))]
      : List (ℚ × ℚ × ℚ)).length = 8 ∧
    List.Forall₂ (fun l t => classify l = LineAct.sample t)
      ["0 0 0".data, "0 0 1".data, "0 1 0".data, "0 1 1".data,
       "1 0 0".data, "1 0 1".data, "1 1 0".data, "1 1 1".data]
      [((0:ℚ),(0:ℚ),(0:ℚ)), ((0:ℚ),(0:ℚ),(1:ℚ)), ((0:ℚ),(1:ℚ),(0:ℚ)), ((0:ℚ),(1:ℚ),(1:ℚ)),
       ((1:ℚ),(0:ℚ),(0:ℚ)), ((1:ℚ),(0:ℚ),(1:ℚ)), ((1:ℚ),(1:ℚ),(0:ℚ)), ((1:ℚ),(1:ℚ),(1:ℚ))] ∧
    scan ("LUT_3D_SIZE 2".data ::
        ["0 0 0".data, "0 0 1".data, "0 1 0".data, "0 1 1".data,
         "1 0 0".data, "1 0 1".data, "1 1 0".data, "1 1 1".data]) (-1) [] =
      .ok (2, [((0:ℚ),(0:ℚ),(0:ℚ)), ((0:ℚ),(0:ℚ),(1:ℚ)), ((0:ℚ),(1:ℚ),(0:ℚ)),
               ((0:ℚ),(1:ℚ),(1:ℚ)), ((1:ℚ),(0:ℚ),(0:ℚ)), ((1:ℚ),(0:ℚ),(1:ℚ)),
               ((1:ℚ),(1:ℚ),(0:ℚ)), ((1:ℚ),(1:ℚ),(1:ℚ))]) ∧
    (pyFloat? (fmt6 (clamp01 (1:ℚ))) = some (val6 1) ∧ |val6 (1:ℚ) - 1| ≤ 1 / 1000000) := by
  have hf : List.Forall₂ (fun l t => classify l = LineAct.sample t)
      ["0 0 0".data, "0 0 1".data, "0 1 0".data, "0 1 1".data,
       "1 0 0".data, "1 0 1".data, "1 1 0".data, "1 1 1".data]
      [((0:ℚ),(0:ℚ),(0:ℚ)), ((0:ℚ),(0:ℚ),(1:ℚ)), ((0:ℚ),(1:ℚ),(0:ℚ)), ((0:ℚ),(1:ℚ),(1:ℚ)),
       ((1:ℚ),(0:ℚ),(0:ℚ)), ((1:ℚ),(0:ℚ),(1:ℚ)), ((1:ℚ),(1:ℚ),(0:ℚ)), ((1:ℚ),(1:ℚ),(1:ℚ))] := by
    refine .cons (by decide) (.cons (by decide) (.cons (by decide) (.cons (by decide)
      (.cons (by decide) (.cons (by decide) (.cons (by decide)
        (.cons (by decide) .nil)))))))
  have h := C6_roundtrip _ _ "t".data (by decide) hf
  exact ⟨by decide, hf, h.1,
    h.2.2.2 ((1:ℚ),(1:ℚ),(1:ℚ)) (by decide) 1 (by decide) (by decide) (by decide)⟩

theorem fmt6_frac (q : ℚ) :
    ∃ fd : List Char, fmt6 q = natToDigits ((round6 q).toNat / 1000000) ++ '.' :: fd ∧
      fd.length = 6 ∧ fd.all isDigit = true := by
  refine ⟨_, fmt6_def q, ?_, ?_⟩
  · simp only [List.length_append, List.length_replicate]
    have : (natToDigits ((round6 q).toNat % 1000000)).length ≤ 6 :=
      natToDigits_length_le (by norm_num) (Nat.mod_lt _ (by norm_num))
    omega
  · refine List.all_eq_true.2 ?_
    intro c hc
    rcases List.mem_append.1 hc with h | h
    · rw [List.eq_of_mem_replicate h]; decide
    · exact natToDigits_digits c h

/-- C7: for every RGBA sample list, edge length and title, the CUBE writer
emits exactly a title line, a single generator comment line, a `LUT_3D_SIZE`
line whose second token decodes to `N`, then one line per input sample in
input order. Each data line splits on whitespace into exactly the three
rendered tokens; each token is the fixed 6-fractional-digit decimal of the
component clamped to [0,1] (out-of-range values are silently clipped), it
parses back to exactly that clamped-and-rounded value, which lies in [0,1];
the alpha component does not appear in the line. -/
theorem C7_cube_writer (rgba : List (F × F × F × F)) (N : ℕ) (title : List Char) :
    (write_cube_file rgba N title).length = 3 + rgba.length ∧
    (write_cube_file rgba N title).take 3 =
      ["TITLE ".data ++ title, "# Generated from Leica Camera LUT".data,
       "LUT_3D_SIZE ".data ++ natToDigits N] ∧
    splitWS ("LUT_3D_SIZE ".data ++ natToDigits N) = ["LUT_3D_SIZE".data, natToDigits N] ∧
    digitsToNat (natToDigits N) = N ∧
    (write_cube_file rgba N title).drop 3 =
      rgba.map (fun t => fmt6 (clampF t.1) ++ ' ' :: fmt6 (clampF t.2.1) ++ ' ' ::
        fmt6 (clampF t.2.2.1)) ∧
    (∀ i (hi : i < rgba.length),
      ((write_cube_file rgba N title).drop 3)[i]? =
        some (fmt6 (clampF rgba[i].1) ++ ' ' :: fmt6 (clampF rgba[i].2.1) ++ ' ' ::
          fmt6 (clampF rgba[i].2.2.1))) ∧
    (∀ t : F × F × F × F,
      splitWS (fmt6 (clampF t.1) ++ ' ' :: fmt6 (clampF t.2.1) ++ ' ' ::
          fmt6 (clampF t.2.2.1)) =
        [fmt6 (clampF t.1), fmt6 (clampF t.2.1), fmt6 (clampF t.2.2.1)]) ∧
    (∀ x : F,
      pyFloat? (fmt6 (clampF x)) = some (val6 (clampF x)) ∧
      0 ≤ val6 (clampF x) ∧ val6 (clampF x) ≤ 1 ∧ 0 ≤ clampF x ∧ clampF x ≤ 1 ∧
      ∃ fd : List Char, fmt6 (clampF x) =
        natToDigits ((round6 (clampF x)).toNat / 1000000) ++ '.' :: fd ∧
        fd.length = 6 ∧ fd.all isDigit = true) := by
  refine ⟨by simp only [write_cube_file, List.length_cons, List.length_map]; omega,
    rfl, ?_, digitsToNat_natToDigits N, rfl, ?_, ?_, ?_⟩
  · have he : "LUT_3D_SIZE ".data ++ natToDigits N =
        "LUT_3D_SIZE".data ++ ' ' :: natToDigits N := rfl
    rw [he]
    exact splitWS_two _ _ (by decide) (natToDigits_ne_nil N) (by decide)
      (fun c hc => (isDigit_facts (natToDigits_digits c hc)).1)
  · intro i hi
    have hd : (write_cube_file rgba N title).drop 3 =
        rgba.map (fun t => fmt6 (clampF t.1) ++ ' ' :: fmt6 (clampF t.2.1) ++ ' ' ::
          fmt6 (clampF t.2.2.1)) := rfl
    rw [hd, List.getElem?_map, List.getElem?_eq_getElem hi]
    rfl
  · intro t
    rw [show fmt6 (clampF t.1) ++ ' ' :: fmt6 (clampF t.2.1) ++ ' ' :: fmt6 (clampF t.2.2.1) =
      fmt6 (clampF t.1) ++ ' ' :: (fmt6 (clampF t.2.1) ++ ' ' :: fmt6 (clampF t.2.2.1)) from by
        simp [List.append_assoc]]
    exact splitWS_three _ _ _ (fmt6_ne_nil _) (fmt6_ne_nil _) (fmt6_ne_nil _)
      (fun c hc => fmt6_no_ws c hc) (fun c hc => fmt6_no_ws c hc)
      (fun c hc => fmt6_no_ws c hc)
  · intro x
    refine ⟨pyFloat?_fmt6 (clampF_nonneg x), ?_, ?_, clampF_nonneg x, clampF_le_one x,
      fmt6_frac _⟩
    · unfold val6
      have h := round6_nonneg (clampF_nonneg x)
      apply div_nonneg (by exact_mod_cast h) (by norm_num)
    · unfold val6
      rw [div_le_one (by norm_num)]
      exact_mod_cast round6_le_million (clampF_le_one x)

theorem C7_cube_writer_witness :
    (0 : ℕ) < ([(F.val 0, F.val 2, F.inf, F.negZero)] : List (F × F × F × F)).length ∧
    ((write_cube_file [(F.val 0, F.val 2, F.inf, F.negZero)] 64 "t".data).drop 3)[0]? =
      some (fmt6 (clampF (F.val 0)) ++ ' ' :: fmt6 (clampF (F.val 2)) ++ ' ' ::
        fmt6 (clampF F.inf)) ∧
    pyFloat? (fmt6 (clampF F.inf)) = some (val6 (clampF F.inf)) := by
  refine ⟨by decide, ?_, ?_⟩
  · exact (C7_cube_writer [(F.val 0, F.val 2, F.inf, F.negZero)] 64 "t".data).2.2.2.2.2.1
      0 (by decide)
  · exact ((C7_cube_writer [(F.val 0, F.val 2, F.inf, F.negZero)] 64
      "t".data).2.2.2.2.2.2.2 F.inf).1

theorem classify_def (line : List Char) :
    classify line =
      if strip line = [] then .skip
      else if ("#".data.isPrefixOf (strip line) || "TITLE".data.isPrefixOf (strip line)
          || "DOMAIN_".data.isPrefixOf (strip line)) then .skip
      else if "LUT_3D_SIZE".data.isPrefixOf (strip line) then
        match splitWS (strip line) with
        | _ :: p1 :: _ =>
          (match pyInt? p1 with
           | some n => .setSize n
           | none => .raiseErr)
        | _ => .skip
      else
        match splitWS (strip line) with
        | [a, b, c] =>
          (match pyFloat? a, pyFloat? b, pyFloat? c with
           | some r, some g, some bb => .sample (r, g, bb)
           | _, _, _ => .discard)
        | _ => .discard := rfl

theorem scan_cons_classify (l : List Char) (ls : List (List Char)) (s : ℤ)
    (acc : List (ℚ × ℚ × ℚ)) :
    (classify l = .skip → scan (l :: ls) s acc = scan ls s acc) ∧
    (classify l = .discard → scan (l :: ls) s acc = scan ls s acc) ∧
    (∀ t, classify l = .sample t → scan (l :: ls) s acc = scan ls s (acc ++ [t])) := by
  have hstep : ∀ res, classify l = res → scan (l :: ls) s acc =
      (match res with
        | LineAct.skip => scan ls s acc
        | LineAct.discard => scan ls s acc
        | LineAct.setSize n => scan ls n acc
        | LineAct.raiseErr => Except.error ()
        | LineAct.sample t => scan ls s (acc ++ [t])) := by
    intro res hres
    show (match classify l with
      | LineAct.skip => scan ls s acc
      | LineAct.discard => scan ls s acc
      | LineAct.setSize n => scan ls n acc
      | LineAct.raiseErr => Except.error ()
      | LineAct.sample t => scan ls s (acc ++ [t])) = _
    rw [hres]
  exact ⟨fun h => hstep _ h, fun h => hstep _ h, fun t h => hstep _ h⟩

/-- C8 counterexample: the line `LUT_3D_SIZE x` is none of the skipped kinds
(blank, comment, `TITLE`, domain keyword), so the claim requires it to be
appended or silently discarded without aborting; instead the scan raises the
uncaught `int('x')` error and the following valid data line is never parsed. -/
theorem C8_sizeline_counterexample :
    strip "LUT_3D_SIZE x".data ≠ [] ∧
    "#".data.isPrefixOf (strip "LUT_3D_SIZE x".data) = false ∧
    "TITLE".data.isPrefixOf (strip "LUT_3D_SIZE x".data) = false ∧
    "DOMAIN_".data.isPrefixOf (strip "LUT_3D_SIZE x".data) = false ∧
    classify "LUT_3D_SIZE x".data = LineAct.raiseErr ∧
    scan ["LUT_3D_SIZE x".data, "0 0 0".data] (-1) [] = .error () := by
  exact ⟨by decide, by decide, by decide, by decide, by decide, by decide⟩

/-- C8 (amended): blank lines, comment lines, `TITLE` lines and domain-range
keyword lines are skipped and never affect the scan; every other non-empty
line that does not start with the `LUT_3D_SIZE` keyword is appended as one RGB
sample exactly when whitespace tokenization yields exactly three tokens all
parseable as numbers, is otherwise silently discarded without raising and
without aborting the scan of the remaining lines, and never sets a size;
lines starting with `LUT_3D_SIZE` are size declarations and can raise on an
invalid integer token. -/
theorem C8_tolerant_line_handling (l : List Char) (ls : List (List Char)) (s : ℤ)
    (acc : List (ℚ × ℚ × ℚ)) :
    ((strip l = [] ∨ "#".data.isPrefixOf (strip l) = true ∨
      "TITLE".data.isPrefixOf (strip l) = true ∨
      "DOMAIN_".data.isPrefixOf (strip l) = true) →
      classify l = .skip ∧ scan (l :: ls) s acc = scan ls s acc) ∧
    (strip l ≠ [] → "#".data.isPrefixOf (strip l) = false →
      "TITLE".data.isPrefixOf (strip l) = false →
      "DOMAIN_".data.isPrefixOf (strip l) = false →
      "LUT_3D_SIZE".data.isPrefixOf (strip l) = false →
      ((∃ t, classify l = .sample t) ↔
        (∃ t1 t2 t3 r g b, splitWS (strip l) = [t1, t2, t3] ∧
          pyFloat? t1 = some r ∧ pyFloat? t2 = some g ∧ pyFloat? t3 = some b)) ∧
      (∀ t, classify l = .sample t → scan (l :: ls) s acc = scan ls s (acc ++ [t])) ∧
      (classify l = .discard → scan (l :: ls) s acc = scan ls s acc) ∧
      classify l ≠ .raiseErr ∧ (∀ n, classify l ≠ .setSize n)) := by
  constructor
  · intro h
    have hcl : classify l = .skip := by
      rw [classify_def]
      by_cases he : strip l = []
      · rw [if_pos he]
      · rw [if_neg he]
        have hcond : ("#".data.isPrefixOf (strip l) || "TITLE".data.isPrefixOf (strip l)
            || "DOMAIN_".data.isPrefixOf (strip l)) = true := by
          rcases h with h | h | h | h
          · exact absurd h he
          · simp [h]
          · simp [h]
          · simp [h]
        rw [if_pos hcond]
    exact ⟨hcl, (scan_cons_classify l ls s acc).1 hcl⟩
  · intro he hp ht hd hl
    have hcl : classify l = (match splitWS (strip l) with
        | [a, b, c] =>
          (match pyFloat? a, pyFloat? b, pyFloat? c with
           | some r, some g, some bb => LineAct.sample (r, g, bb)
           | _, _, _ => LineAct.discard)
        | _ => LineAct.discard) := by
      rw [classify_def, if_neg he, if_neg (by simp [hp, ht, hd]), if_neg (by simp [hl])]
    have hmaster : (∃ t, classify l = LineAct.sample t) ∨ classify l = LineAct.discard := by
      rw [hcl]
      rcases splitWS (strip l) with _ | ⟨t1, _ | ⟨t2, _ | ⟨t3, _ | ⟨t4, rest⟩⟩⟩⟩
      · exact Or.inr rfl
      · exact Or.inr rfl
      · exact Or.inr rfl
      · have hred : ∀ res : LineAct,
            (match pyFloat? t1, pyFloat? t2, pyFloat? t3 with
              | some r, some g, some bb => LineAct.sample (r, g, bb)
              | _, _, _ => LineAct.discard) = res →
            (match [t1, t2, t3] with
              | [a, b, c] =>
                (match pyFloat? a, pyFloat? b, pyFloat? c with
                  | some r, some g, some bb => LineAct.sample (r, g, bb)
                  | _, _, _ => LineAct.discard)
              | _ => LineAct.discard) = res := fun res h => h
        rcases hp1 : pyFloat? t1 with _ | r
        · exact Or.inr (hred _ (by rw [hp1]))
        · rcases hp2 : pyFloat? t2 with _ | g
          · exact Or.inr (hred _ (by rw [hp1, hp2]))
          · rcases hp3 : pyFloat? t3 with _ | b
            · exact Or.inr (hred _ (by rw [hp1, hp2, hp3]))
            · exact Or.inl ⟨(r, g, b), hred _ (by rw [hp1, hp2, hp3])⟩
      · exact Or.inr rfl
    refine ⟨?_, (scan_cons_classify l ls s acc).2.2, (scan_cons_classify l ls s acc).2.1,
      ?_, ?_⟩
    · constructor
      · rintro ⟨t, hts⟩
        rw [hcl] at hts
        rcases hsp : splitWS (strip l) with _ | ⟨t1, _ | ⟨t2, _ | ⟨t3, _ | ⟨t4, rest⟩⟩⟩⟩ <;>
          rw [hsp] at hts
        · simp at hts
        · simp at hts
        · simp at hts
        · have hts' : (match pyFloat? t1, pyFloat? t2, pyFloat? t3 with
              | some r, some g, some bb => LineAct.sample (r, g, bb)
              | _, _, _ => LineAct.discard) = LineAct.sample t := hts
          rcases hp1 : pyFloat? t1 with _ | r <;> rw [hp1] at hts'
          · simp at hts'
          · rcases hp2 : pyFloat? t2 with _ | g <;> rw [hp2] at hts'
            · simp at hts'
            · rcases hp3 : pyFloat? t3 with _ | b <;> rw [hp3] at hts'
              · simp at hts'
              · exact ⟨t1, t2, t3, r, g, b, rfl, hp1, hp2, hp3⟩
        · simp at hts
      · rintro ⟨t1, t2, t3, r, g, b, hsp, hp1, hp2, hp3⟩
        refine ⟨(r, g, b), ?_⟩
        rw [hcl, hsp]
        show (match pyFloat? t1, pyFloat? t2, pyFloat? t3 with
          | some r, some g, some bb => LineAct.sample (r, g, bb)
          | _, _, _ => LineAct.discard) = LineAct.sample (r, g, b)
        rw [hp1, hp2, hp3]
    · rcases hmaster with ⟨t, h'⟩ | h' <;> simp [h']
    · intro n
      rcases hmaster with ⟨t, h'⟩ | h' <;> simp [h']

theorem C8_tolerant_line_handling_witness :
    (strip "0.5 x 1".data ≠ [] ∧
      "#".data.isPrefixOf (strip "0.5 x 1".data) = false ∧
      "TITLE".data.isPrefixOf (strip "0.5 x 1".data) = false ∧
      "DOMAIN_".data.isPrefixOf (strip "0.5 x 1".data) = false ∧
      "LUT_3D_SIZE".data.isPrefixOf (strip "0.5 x 1".data) = false) ∧
    scan ["0.5 x 1".data] 5 [] = scan [] 5 [] ∧
    classify "0.5 x 1".data ≠ LineAct.raiseErr := by
  refine ⟨⟨by decide, by decide, by decide, by decide, by decide⟩, ?_, ?_⟩
  · exact ((C8_tolerant_line_handling "0.5 x 1".data [] 5 []).2 (by decide) (by decide)
      (by decide) (by decide) (by decide)).2.2.1 (by decide)
  · exact ((C8_tolerant_line_handling "0.5 x 1".data [] 5 []).2 (by decide) (by decide)
      (by decide) (by decide) (by decide)).2.2.2.1

end FilmSims
